import Mathlib

/-!
Verification of the risk-engine core (market-state shocks, VaR, PFE and
Monte-Carlo path simulation) against its natural-language specification.

The Python source is embedded shallowly:

* floats become `ℚ` wherever the computation is exact rational arithmetic
  (quantiles, means, shock application, grid validation) and `ℝ` where
  `sqrt`/`exp`/`log` appear (horizon scaling, path recurrences, the normal
  inverse CDF);
* `numpy` random draws become explicit function arguments
  (`ℕ → ℕ → ℝ` indexed by path and step, or `ℕ → ℕ` for the successive
  integer draws of the top-level generator), so that randomness is data;
* raising `ValueError`/`KeyError` becomes returning `Except String`.

Each embedded definition cites the Python function it was translated from.
-/

/-! ## Empirical quantile (`np.quantile`, `method="linear"`)

`np.quantile(a, p, method="linear")` sorts the data, places a virtual index
`pos = p * (n - 1)` and linearly interpolates between the two neighbouring
order statistics.  Used by `historical_var`, `scenario_pfe` and
`monte_carlo_pfe_profile`. -/

/-- Linear-interpolation empirical quantile of a list, exactly as
`np.quantile(xs, p, method="linear")` computes it for `p ∈ [0, 1]`. -/
def npQuantile {α : Type} [LinearOrderedField α] [FloorRing α]
    (xs : List α) (p : α) : α :=
  let s := xs.insertionSort (· ≤ ·)
  let pos := p * ((s.length : α) - 1)
  let i := (⌊pos⌋).toNat
  let lo := s.getD i 0
  let hi := s.getD (i + 1) lo
  lo + (pos - (i : α)) * (hi - lo)

/-! ## Market state and shocks

From `src/risk_engine/market/state.py` and `src/risk_engine/scenarios/shock.py`.
`MarketState.factors` is a Python `dict`; it is embedded as an ordered
association list with `dict`-update semantics (replacing an existing key
keeps its position, a new key is appended), which is exactly the insertion
order a Python `dict` maintains.  The curve registry is `None` throughout
(the claims never attach one), so `_validate_curve_id` is the identity. -/

/-- One risk-factor shock (`Shock` in `scenarios/shock.py`).  `shock_type`
is kept as a string because the source compares it against `"abs"` and
`"rel"` at runtime and raises on anything else. -/
structure Shock where
  key : String
  shock_type : String
  value : ℚ
deriving DecidableEq, Repr

/-- An ordered collection of shocks (`ShockSet` in `scenarios/shock.py`). -/
structure ShockSet where
  shocks : List Shock
deriving DecidableEq, Repr

/-- Immutable market-state container (`MarketState` in `market/state.py`),
reduced to its `factors` mapping. -/
structure MarketState where
  factors : List (String × ℚ)
deriving DecidableEq, Repr

/-- Python `dict` single-key update: replace in place when the key exists,
append otherwise. -/
def dictInsert (fs : List (String × ℚ)) (k : String) (v : ℚ) :
    List (String × ℚ) :=
  if fs.any (fun p => p.1 = k) then
    fs.map (fun p => if p.1 = k then (k, v) else p)
  else
    fs ++ [(k, v)]

/-- Factor lookup returning `none` when the key is absent. -/
def lookupFactor (fs : List (String × ℚ)) (k : String) : Option ℚ :=
  (fs.find? (fun p => p.1 = k)).map (fun p => p.2)

/-- `MarketState.get` from `market/state.py`: returns the factor value or
raises `KeyError("Missing market factor ...")` when the key is absent. -/
def MarketState.get (st : MarketState) (k : String) : Except String ℚ :=
  match lookupFactor st.factors k with
  | some v => .ok v
  | none => .error ("Missing market factor " ++ k)

/-- `MarketState.with_factors`: copy the factor dict and apply `dict.update`
with the given updates, in order. -/
def MarketState.with_factors (st : MarketState) (updates : List (String × ℚ)) :
    MarketState :=
  ⟨updates.foldl (fun fs kv => dictInsert fs kv.1 kv.2) st.factors⟩

/-- The `updates` dict built by the loop in `apply_shocks`
(`scenarios/apply.py`): for each shock, read the base value from the
ORIGINAL state, combine it with the shock value according to the shock type,
and store it under the shock key (last write wins). -/
def buildUpdates (state : MarketState) (acc : List (String × ℚ)) :
    List Shock → Except String (List (String × ℚ))
  | [] => .ok acc
  | s :: rest =>
    match state.get s.key with
    | .error e => .error e
    | .ok base =>
      if s.shock_type = "abs" then
        buildUpdates state (dictInsert acc s.key (base + s.value)) rest
      else if s.shock_type = "rel" then
        buildUpdates state (dictInsert acc s.key (base * (1 + s.value))) rest
      else
        .error ("Unknown shock_type: " ++ s.shock_type)

/-- `apply_shocks(state, shockset)` from `scenarios/apply.py`. -/
def apply_shocks (state : MarketState) (shockset : ShockSet) :
    Except String MarketState :=
  (buildUpdates state [] shockset.shocks).map state.with_factors

/-! ## Historical and parametric VaR

From `src/risk_engine/metrics/var.py`.  Returns and confidences are `ℚ`
(the quantile arithmetic is exact), the reported VaR is `ℝ` because of the
`√horizon` scaling.  The validators `_validate_return_type` and
`_validate_tail` lowercase their argument before comparing; the embedding
takes the already-lowercased strings, which is what every claim supplies. -/

/-- Output record of `historical_var` (`HistoricalVaRResult`). -/
structure HistoricalVaRResult where
  var : ℝ
  confidence : ℚ
  horizon : ℕ
  quantile : ℚ

/-- Arithmetic mean, `np.mean`. -/
def listMean (xs : List ℚ) : ℚ := xs.sum / (xs.length : ℚ)

/-- `historical_var(returns, confidence, horizon, return_type, tail)` from
`metrics/var.py`. -/
noncomputable def historical_var (returns : List ℚ) (confidence : ℚ)
    (horizon : ℕ) (return_type : String) (tail : String) :
    Except String HistoricalVaRResult :=
  if confidence ≤ 0 ∨ 1 ≤ confidence then
    .error "confidence must be in (0, 1)"
  else if horizon = 0 then
    .error "horizon must be a positive integer"
  else if returns = [] then
    .error "returns must contain at least one value"
  else if ¬(return_type = "simple" ∨ return_type = "log") then
    .error "return_type must be simple or log"
  else if ¬(tail = "left" ∨ tail = "right") then
    .error "tail must be left or right"
  else
    let mean := listMean returns
    let tail_prob := if tail = "right" then confidence else 1 - confidence
    let q := npQuantile returns tail_prob
    let scaled : ℝ :=
      if return_type = "log" then
        (mean : ℝ) * (horizon : ℝ) + ((q : ℝ) - (mean : ℝ)) * Real.sqrt (horizon : ℝ)
      else
        (q : ℝ) * Real.sqrt (horizon : ℝ)
    let var : ℝ := if tail = "right" then scaled else -scaled
    .ok ⟨var, confidence, horizon, q⟩

/-- Output record of `parametric_var` and `parametric_portfolio_var`
(`ParametricVaRResult`). -/
structure ParametricVaRResult where
  var : ℝ
  confidence : ℚ
  horizon : ℕ
  mean : ℚ
  std : ℝ
  z : ℝ

/-- Sample variance with Bessel correction, the square of
`np.std(data, ddof=1)`. -/
def sampleVariance (xs : List ℚ) : ℚ :=
  ((xs.map (fun x => (x - listMean xs) ^ 2)).sum) / ((xs.length : ℚ) - 1)

/-- The tail-region rational approximation used by `_normal_ppf` in
`metrics/var.py` (the self-contained Acklam fallback; the SciPy branch,
when available, computes the same quantile to higher accuracy — only the
value being a fixed real function of the probability matters for the
claims). -/
noncomputable def acklamTail (q : ℝ) : ℝ :=
  let num := ((((-7.784894002430293e-03 * q + -3.223964580411365e-01) * q +
    -2.400758277161838e00) * q + -2.549732539343734e00) * q +
    4.374664141464968e00) * q + 2.938163982698783e00
  let den := (((7.784695709041462e-03 * q + 3.224671290700398e-01) * q +
    2.445134137142996e00) * q + 3.754408661907416e00) * q + 1
  num / den

/-- The central-region rational approximation of `_normal_ppf`. -/
noncomputable def acklamCentral (p : ℚ) : ℝ :=
  let q : ℝ := (p : ℝ) - 1 / 2
  let r := q * q
  let num := (((((-3.969683028665376e01 * r + 2.209460984245205e02) * r +
    -2.759285104469687e02) * r + 1.383577518672690e02) * r +
    -3.066479806614716e01) * r + 2.506628277459239e00) * q
  let den := ((((-5.447609879822406e01 * r + 1.615858368580409e02) * r +
    -1.556989798598866e02) * r + 6.680131188771972e01) * r +
    -1.328068155288572e01) * r + 1
  num / den

/-- The Acklam approximation, assembled from its three branches exactly as
the source does, with `plow = 0.02425`. -/
noncomputable def acklamPPF (p : ℚ) : ℝ :=
  if p < 2425 / 100000 then
    acklamTail (Real.sqrt (-2 * Real.log (p : ℝ)))
  else if 1 - 2425 / 100000 < p then
    -acklamTail (Real.sqrt (-2 * Real.log (1 - (p : ℝ))))
  else
    acklamCentral p

/-- `_normal_ppf(probability)` from `metrics/var.py`: fails outside `(0,1)`,
otherwise evaluates the inverse normal CDF. -/
noncomputable def normal_ppf (p : ℚ) : Except String ℝ :=
  if p ≤ 0 ∨ 1 ≤ p then .error "probability must be in (0, 1)"
  else .ok (acklamPPF p)

/-- `parametric_var(returns, confidence, horizon, return_type, tail)` from
`metrics/var.py`. -/
noncomputable def parametric_var (returns : List ℚ) (confidence : ℚ)
    (horizon : ℕ) (return_type : String) (tail : String) :
    Except String ParametricVaRResult :=
  if confidence ≤ 0 ∨ 1 ≤ confidence then
    .error "confidence must be in (0, 1)"
  else if horizon = 0 then
    .error "horizon must be a positive integer"
  else if returns = [] then
    .error "returns must contain at least one value"
  else
    let mean := listMean returns
    let std : ℝ :=
      if 1 < returns.length then Real.sqrt ((sampleVariance returns : ℝ)) else 0
    if ¬(return_type = "simple" ∨ return_type = "log") then
      .error "return_type must be simple or log"
    else if ¬(tail = "left" ∨ tail = "right") then
      .error "tail must be left or right"
    else
      let tail_prob := if tail = "right" then confidence else 1 - confidence
      match normal_ppf tail_prob with
      | .error e => .error e
      | .ok z =>
        if return_type = "log" then
          let quantile : ℝ :=
            (mean : ℝ) * (horizon : ℝ) + z * (std * Real.sqrt (horizon : ℝ))
          let var : ℝ := if tail = "right" then quantile else -quantile
          .ok ⟨var, confidence, horizon, mean, std, z⟩
        else
          let quantile : ℝ := (mean : ℝ) + z * std
          let var : ℝ :=
            if tail = "right" then quantile * Real.sqrt (horizon : ℝ)
            else -(quantile * Real.sqrt (horizon : ℝ))
          .ok ⟨var, confidence, horizon, mean, std, z⟩

/-- Dot product of rational vectors, `np.dot`. -/
def dotQ (a b : List ℚ) : ℚ := (List.zipWith (· * ·) a b).sum

/-- `parametric_portfolio_var(weights, covariance, mean, confidence,
horizon, return_type, ..., tail)` from `metrics/var.py`.  The two advisory
warnings (`check_weight_sum`, `warn_non_psd`) do not change the result and
are omitted; the portfolio variance is clamped at zero before the square
root, exactly as `np.sqrt(max(portfolio_var, 0.0))` does. -/
noncomputable def parametric_portfolio_var (weights : List ℚ)
    (covariance : List (List ℚ)) (mean : Option (List ℚ)) (confidence : ℚ)
    (horizon : ℕ) (return_type : String) (tail : String) :
    Except String ParametricVaRResult :=
  if confidence ≤ 0 ∨ 1 ≤ confidence then
    .error "confidence must be in (0, 1)"
  else if horizon = 0 then
    .error "horizon must be a positive integer"
  else if weights = [] then
    .error "weights must contain at least one value"
  else if ¬(covariance.all (fun row => row.length = covariance.length)) then
    .error "covariance must be a square matrix"
  else if ¬(covariance.length = weights.length) then
    .error "weights and covariance dimensions must match"
  else
    let mean_vec := mean.getD (List.replicate weights.length 0)
    if ¬(mean_vec.length = weights.length) then
      .error "mean must match weights length"
    else
      let portfolio_mean := dotQ weights mean_vec
      let portfolio_var := dotQ weights (covariance.map (fun row => dotQ row weights))
      let portfolio_std : ℝ := Real.sqrt ((max portfolio_var 0 : ℚ) : ℝ)
      if ¬(return_type = "simple" ∨ return_type = "log") then
        .error "return_type must be simple or log"
      else if ¬(tail = "left" ∨ tail = "right") then
        .error "tail must be left or right"
      else
        let tail_prob := if tail = "right" then confidence else 1 - confidence
        match normal_ppf tail_prob with
        | .error e => .error e
        | .ok z =>
          if return_type = "log" then
            let quantile : ℝ := (portfolio_mean : ℝ) * (horizon : ℝ) +
              z * (portfolio_std * Real.sqrt (horizon : ℝ))
            let var : ℝ := if tail = "right" then quantile else -quantile
            .ok ⟨var, confidence, horizon, portfolio_mean, portfolio_std, z⟩
          else
            let quantile : ℝ := (portfolio_mean : ℝ) + z * portfolio_std
            let var : ℝ :=
              if tail = "right" then quantile * Real.sqrt (horizon : ℝ)
              else -(quantile * Real.sqrt (horizon : ℝ))
            .ok ⟨var, confidence, horizon, portfolio_mean, portfolio_std, z⟩

/-! ## Scenario PFE

From `src/risk_engine/metrics/pfe.py`.  `scenario_pnls` is either a 1-D
array of portfolio PnLs or a 2-D (scenarios × positions) array; `numpy`
2-D arrays are rectangular lists of rows here. -/

/-- The two admissible shapes of `scenario_pnls`. -/
inductive PnlArray where
  | one : List ℚ → PnlArray
  | two : List (List ℚ) → PnlArray
deriving DecidableEq, Repr

/-- Output record of `scenario_pfe` (`ScenarioPFEResult`).  All fields are
exact rationals, including the echoed `netting` flag and scenario count. -/
structure ScenarioPFEResult where
  pfe : ℚ
  confidence : ℚ
  horizon : Option ℤ
  quantile : ℚ
  threshold : ℚ
  netting : Bool
  num_scenarios : ℕ
deriving DecidableEq, Repr

/-- `_scenario_exposures(scenario_pnls, threshold, netting)` from
`metrics/pfe.py`: 1-D input is used as-is (the `netting` flag is not
consulted); 2-D input is netted by summing each row, or summed over the
positive parts per position when netting is off; then the threshold is
subtracted and the result floored at zero. -/
def scenario_exposures (scenario_pnls : PnlArray) (threshold : ℚ)
    (netting : Bool) : Except String (List ℚ) :=
  match scenario_pnls with
  | .one data =>
    if data = [] then .error "scenario_pnls must contain at least one value"
    else .ok (data.map (fun x => max (x - threshold) 0))
  | .two rows =>
    if (rows.map List.length).sum = 0 then
      .error "scenario_pnls must contain at least one value"
    else
      let netted :=
        if netting then rows.map List.sum
        else rows.map (fun r => (r.map (fun x => max x 0)).sum)
      .ok (netted.map (fun x => max (x - threshold) 0))

/-- `scenario_pfe(scenario_pnls, confidence, horizon, threshold, netting)`
from `metrics/pfe.py`. -/
def scenario_pfe (scenario_pnls : PnlArray) (confidence : ℚ)
    (horizon : Option ℤ) (threshold : ℚ) (netting : Bool) :
    Except String ScenarioPFEResult :=
  if confidence ≤ 0 ∨ 1 ≤ confidence then
    .error "confidence must be in (0, 1)"
  else
    match scenario_exposures scenario_pnls threshold netting with
    | .error e => .error e
    | .ok exposures =>
      let quantile := npQuantile exposures confidence
      .ok ⟨quantile, confidence, horizon, quantile, threshold, netting,
        exposures.length⟩

/-! ## Monte Carlo PFE grid validation

From `_validate_horizons` in `src/risk_engine/metrics/pfe.py`.  Python's
built-in `round` rounds half to even; `np.isclose(a, b)` means
`|a - b| ≤ atol + rtol·|b|` with `atol = 1e-8`, `rtol = 1e-5`. -/

/-- Python `round` (banker's rounding, half to even) on an exact rational. -/
def roundHalfEven (q : ℚ) : ℤ :=
  let f := ⌊q⌋
  let r := q - (f : ℚ)
  if r < 1 / 2 then f
  else if 1 / 2 < r then f + 1
  else if f % 2 = 0 then f else f + 1

/-- `np.isclose(a, b)` with the default tolerances. -/
def iscloseQ (a b : ℚ) : Bool :=
  |a - b| ≤ 1 / 100000000 + (1 / 100000) * |b|

/-- `_validate_horizons(horizons, dt)` from `metrics/pfe.py`: sort the
horizons, demand a positive `dt`, a non-negative grid with a positive
maximum, and that the maximum and every horizon sit on the `dt` grid up to
`np.isclose` tolerance; returns the sorted horizons and the step count
`round(max_horizon / dt)`. -/
def validate_horizons (horizons : List ℚ) (dt : ℚ) :
    Except String (List ℚ × ℤ) :=
  if dt ≤ 0 then .error "dt must be greater than 0"
  else if horizons = [] then .error "horizons must contain at least one value"
  else
    let times := horizons.insertionSort (· ≤ ·)
    if times.headD 0 < 0 then .error "horizons must be nonnegative"
    else if times.getLastD 0 = 0 then .error "max horizon must be greater than 0"
    else
      let maxH := times.getLastD 0
      let numSteps := roundHalfEven (maxH / dt)
      if iscloseQ maxH ((numSteps : ℚ) * dt) = false then
        .error "max horizon must align with dt"
      else if times.all (fun h => iscloseQ (h / dt) ((roundHalfEven (h / dt) : ℤ) : ℚ)) then
        .ok (times, numSteps)
      else
        .error "all horizons must align with dt"

/-! ## Sub-seed derivation in `monte_carlo_pfe_profile`

From `src/risk_engine/metrics/pfe.py` (lines 497-541): a single top-level
generator `rng = np.random.default_rng(seed)` is created, then for each
equity model, in the iteration order of the `equity_models` dict, one draw
`int(rng.integers(0, 2**32 - 1))` becomes that model's simulation seed, and
when a rate model is configured one further draw becomes the rate seed.
The successive integer draws of the top-level generator are embedded as a
function `stream : ℕ → ℕ` (draw index ↦ value); a fixed seed determines a
fixed stream. -/

/-- Assign the draws `stream i, stream (i+1), ...` to the listed equity
symbols in order — the seed-drawing loop of `monte_carlo_pfe_profile`. -/
def seedAssign (stream : ℕ → ℕ) (i : ℕ) : List String → List (String × ℕ)
  | [] => []
  | s :: rest => (s, stream i) :: seedAssign stream (i + 1) rest

/-- The equity sub-seeds drawn by `monte_carlo_pfe_profile`: the k-th
configured equity model receives the k-th draw of the top-level generator. -/
def equitySubSeeds (stream : ℕ → ℕ) (symbols : List String) :
    List (String × ℕ) :=
  seedAssign stream 0 symbols

/-- The rate-model sub-seed drawn by `monte_carlo_pfe_profile`: one more
draw after all equity draws, or none when no rate model is configured. -/
def rateSubSeed (stream : ℕ → ℕ) (symbols : List String)
    (hasRateModel : Bool) : Option ℕ :=
  if hasRateModel then some (stream symbols.length) else none

/-- The sub-seed a given symbol receives, if any. -/
def subSeedOf (assign : List (String × ℕ)) (s : String) : Option ℕ :=
  (assign.find? (fun p => p.1 = s)).map (fun p => p.2)

/-! ## Path simulators

From `src/risk_engine/simulation/monte_carlo.py`.  The standard-normal
draw matrices `rng.standard_normal(size=(num_paths, num_steps))` are
embedded as functions `ℕ → ℕ → ℝ` (path index, step index ↦ draw); model
parameters, the initial levels and `dt` are exact rationals so the
validation guards stay decidable, and the path values live in `ℝ`. -/

/-- GBM parameters (`GBMParams`). -/
structure GBMParams where
  drift : ℚ
  vol : ℚ
deriving DecidableEq, Repr

/-- Hull-White one-factor parameters (`HullWhiteParams`). -/
structure HullWhiteParams where
  mean_reversion : ℚ
  long_rate : ℚ
  vol : ℚ
deriving DecidableEq, Repr

/-- Heston parameters (`HestonParams`). -/
structure HestonParams where
  kappa : ℚ
  long_var : ℚ
  vol_of_vol : ℚ
  rho : ℚ
  initial_var : ℚ
  drift : ℚ
deriving DecidableEq, Repr

/-- Vasicek parameters (`VasicekParams`). -/
structure VasicekParams where
  mean_reversion : ℚ
  long_rate : ℚ
  vol : ℚ
deriving DecidableEq, Repr

/-- One GBM log-increment:
`(drift - vol²/2)·dt + vol·√dt·Z[p, j]`. -/
noncomputable def gbmLogStep (shocks : ℕ → ℕ → ℝ) (params : GBMParams)
    (dt : ℚ) (p j : ℕ) : ℝ :=
  ((params.drift - params.vol ^ 2 / 2) * dt : ℚ) +
    (params.vol : ℝ) * Real.sqrt (dt : ℝ) * shocks p j

/-- Running sum of the first `k` log-increments of path `p`
(`np.cumsum(log_steps, axis=1)`). -/
noncomputable def gbmCumLog (shocks : ℕ → ℕ → ℝ) (params : GBMParams)
    (dt : ℚ) (p : ℕ) : ℕ → ℝ
  | 0 => 0
  | k + 1 => gbmCumLog shocks params dt p k + gbmLogStep shocks params dt p k

/-- `simulate_gbm_paths` from `simulation/monte_carlo.py`: validation
guards, then `paths[:, 0] = spot` and
`paths[:, 1:] = spot * exp(cumsum(log_steps, axis=1))`. -/
noncomputable def simulate_gbm_paths (shocks : ℕ → ℕ → ℝ) (spot : ℚ)
    (params : GBMParams) (dt : ℚ) (num_steps num_paths : ℕ) :
    Except String (List (List ℝ)) :=
  if spot ≤ 0 then .error "spot must be greater than 0"
  else if dt ≤ 0 then .error "dt must be greater than 0"
  else if num_steps = 0 then .error "num_steps must be greater than 0"
  else if num_paths = 0 then .error "num_paths must be greater than 0"
  else if params.vol < 0 then .error "vol must be nonnegative"
  else
    .ok ((List.range num_paths).map (fun p =>
      (spot : ℝ) :: (List.range num_steps).map (fun j =>
        (spot : ℝ) * Real.exp (gbmCumLog shocks params dt p (j + 1)))))

/-- The shared Euler recurrence of Vasicek and Hull-White:
`r[k+1] = r[k] + a·(b - r[k])·dt + vol·√dt·Z[p, k]`, `r[0] = rate`
(the two Python loop bodies are textually identical). -/
noncomputable def ouRate (shocks : ℕ → ℕ → ℝ) (rate a b vol dt : ℚ)
    (p : ℕ) : ℕ → ℝ
  | 0 => (rate : ℝ)
  | k + 1 =>
    let prev := ouRate shocks rate a b vol dt p k
    prev + (a : ℝ) * ((b : ℝ) - prev) * (dt : ℝ) +
      (vol : ℝ) * Real.sqrt (dt : ℝ) * shocks p k

/-- `simulate_hull_white_paths` from `simulation/monte_carlo.py`. -/
noncomputable def simulate_hull_white_paths (shocks : ℕ → ℕ → ℝ) (rate : ℚ)
    (params : HullWhiteParams) (dt : ℚ) (num_steps num_paths : ℕ) :
    Except String (List (List ℝ)) :=
  if dt ≤ 0 then .error "dt must be greater than 0"
  else if num_steps = 0 then .error "num_steps must be greater than 0"
  else if num_paths = 0 then .error "num_paths must be greater than 0"
  else if params.mean_reversion < 0 then .error "mean_reversion must be nonnegative"
  else if params.vol < 0 then .error "vol must be nonnegative"
  else
    .ok ((List.range num_paths).map (fun p =>
      (List.range (num_steps + 1)).map
        (ouRate shocks rate params.mean_reversion params.long_rate params.vol dt p)))

/-- `simulate_vasicek_paths` from `simulation/monte_carlo.py` (same guards
and the same Euler loop as Hull-White). -/
noncomputable def simulate_vasicek_paths (shocks : ℕ → ℕ → ℝ) (rate : ℚ)
    (params : VasicekParams) (dt : ℚ) (num_steps num_paths : ℕ) :
    Except String (List (List ℝ)) :=
  if dt ≤ 0 then .error "dt must be greater than 0"
  else if num_steps = 0 then .error "num_steps must be greater than 0"
  else if num_paths = 0 then .error "num_paths must be greater than 0"
  else if params.mean_reversion < 0 then .error "mean_reversion must be nonnegative"
  else if params.vol < 0 then .error "vol must be nonnegative"
  else
    .ok ((List.range num_paths).map (fun p =>
      (List.range (num_steps + 1)).map
        (ouRate shocks rate params.mean_reversion params.long_rate params.vol dt p)))

/-- The joint (spot, variance) state of the full-truncation Euler scheme in
`simulate_heston_paths`: `w1 = z1`,
`w2 = rho·z1 + √(max(1 - rho², 0))·z2`,
`S[k+1] = S[k]·exp((drift - V⁺/2)·dt + √(V⁺·dt)·w1)`,
`V[k+1] = max(V⁺ + kappa·(long_var - V⁺)·dt + vol_of_vol·√(V⁺·dt)·w2, 0)`
with `V⁺ = max(V[k], 0)`. -/
noncomputable def hestonState (z1 z2 : ℕ → ℕ → ℝ) (spot : ℚ)
    (params : HestonParams) (dt : ℚ) (p : ℕ) : ℕ → ℝ × ℝ
  | 0 => ((spot : ℝ), (params.initial_var : ℝ))
  | k + 1 =>
    let prev := hestonState z1 z2 spot params dt p k
    let prevVar := max prev.2 0
    let w1 := z1 p k
    let w2 := (params.rho : ℝ) * z1 p k +
      Real.sqrt ((max (1 - params.rho ^ 2) 0 : ℚ) : ℝ) * z2 p k
    let sNew := prev.1 * Real.exp (((params.drift : ℝ) - prevVar / 2) * (dt : ℝ) +
      Real.sqrt (prevVar * (dt : ℝ)) * w1)
    let vNew := max (prevVar + (params.kappa : ℝ) * ((params.long_var : ℝ) - prevVar) * (dt : ℝ) +
      (params.vol_of_vol : ℝ) * Real.sqrt (prevVar * (dt : ℝ)) * w2) 0
    (sNew, vNew)

/-- `simulate_heston_paths` from `simulation/monte_carlo.py` (returns the
spot paths). -/
noncomputable def simulate_heston_paths (z1 z2 : ℕ → ℕ → ℝ) (spot : ℚ)
    (params : HestonParams) (dt : ℚ) (num_steps num_paths : ℕ) :
    Except String (List (List ℝ)) :=
  if spot ≤ 0 then .error "spot must be greater than 0"
  else if dt ≤ 0 then .error "dt must be greater than 0"
  else if num_steps = 0 then .error "num_steps must be greater than 0"
  else if num_paths = 0 then .error "num_paths must be greater than 0"
  else if params.kappa < 0 then .error "kappa must be nonnegative"
  else if params.long_var < 0 then .error "long_var must be nonnegative"
  else if params.vol_of_vol < 0 then .error "vol_of_vol must be nonnegative"
  else if ¬(-1 ≤ params.rho ∧ params.rho ≤ 1) then .error "rho must be in the unit interval"
  else if params.initial_var < 0 then .error "initial_var must be nonnegative"
  else
    .ok ((List.range num_paths).map (fun p =>
      (List.range (num_steps + 1)).map
        (fun k => (hestonState z1 z2 spot params dt p k).1)))

/-! ## Lemmas about the empirical quantile -/

/-- `getD` after `map`: the default must be mapped too. -/
theorem getD_map_fn {α β : Type} (f : α → β) (l : List α) (n : ℕ) (d : α) :
    (l.map f).getD n (f d) = f (l.getD n d) := by
  simp only [List.getD_eq_getElem?_getD, List.getElem?_map]
  cases l[n]? <;> rfl

/-- Sorting commutes with a monotone map. -/
theorem insertionSort_map_of_monotone {α β : Type} [LinearOrder α]
    [LinearOrder β] (f : α → β) (hf : ∀ a b : α, a ≤ b → f a ≤ f b)
    (l : List α) :
    List.insertionSort (· ≤ ·) (l.map f) =
      (List.insertionSort (· ≤ ·) l).map f := by
  haveI : IsAntisymm β (· ≤ ·) := ⟨fun a b h1 h2 => le_antisymm h1 h2⟩
  have hperm : List.Perm (List.insertionSort (· ≤ ·) (l.map f))
      ((List.insertionSort (· ≤ ·) l).map f) :=
    (List.perm_insertionSort _ _).trans ((List.perm_insertionSort _ l).map f).symm
  have h1 : List.Sorted (· ≤ ·) (List.insertionSort (· ≤ ·) (l.map f)) :=
    List.sorted_insertionSort _ _
  have h2 : List.Sorted (· ≤ ·) ((List.insertionSort (· ≤ ·) l).map f) :=
    List.pairwise_map.mpr ((List.sorted_insertionSort _ l).imp (fun h => hf _ _ h))
  exact List.eq_of_perm_of_sorted hperm h1 h2

/-- Positive-scalar homogeneity of the linear-interpolation quantile. -/
theorem npQuantile_map_mul {α : Type} [LinearOrderedField α] [FloorRing α]
    (xs : List α) (c p : α) (hc : 0 ≤ c) :
    npQuantile (xs.map (fun x => x * c)) p = npQuantile xs p * c := by
  unfold npQuantile
  have hsort := insertionSort_map_of_monotone (fun x : α => x * c)
    (fun a b hab => mul_le_mul_of_nonneg_right hab hc) xs
  simp only [hsort, List.length_map]
  set s := List.insertionSort (· ≤ ·) xs with hs
  have hlo := getD_map_fn (fun x => x * c) s ((⌊p * ((s.length : α) - 1)⌋).toNat) 0
  rw [zero_mul] at hlo
  rw [hlo, getD_map_fn (fun x => x * c) s _ _]
  ring

/-- The quantile of a rational list, cast to `ℝ`, equals the real quantile
of the cast list. -/
theorem npQuantile_map_ratCast (xs : List ℚ) (p : ℚ) :
    npQuantile (xs.map (fun x : ℚ => (x : ℝ))) ((p : ℚ) : ℝ) =
      ((npQuantile xs p : ℚ) : ℝ) := by
  unfold npQuantile
  have hsort := insertionSort_map_of_monotone (fun x : ℚ => (x : ℝ))
    (fun a b hab => Rat.cast_le.mpr hab) xs
  simp only [hsort, List.length_map]
  set s := List.insertionSort (· ≤ ·) xs with hs
  have hpos : (p : ℝ) * ((s.length : ℝ) - 1) = ((p * ((s.length : ℚ) - 1) : ℚ) : ℝ) := by
    push_cast
    ring
  have hfloor : ⌊(p : ℝ) * ((s.length : ℝ) - 1)⌋ = ⌊p * ((s.length : ℚ) - 1)⌋ := by
    rw [hpos, Rat.floor_cast]
  have hlo := getD_map_fn (fun x : ℚ => (x : ℝ)) s ((⌊p * ((s.length : ℚ) - 1)⌋).toNat) 0
  rw [Rat.cast_zero] at hlo
  rw [hfloor, hlo, getD_map_fn (fun x : ℚ => (x : ℝ)) s _ _]
  rw [hpos]
  push_cast
  ring

/-- Concrete evaluation check for the quantile used in several claims. -/
theorem npQuantile_c5_sample :
    npQuantile [(1:ℚ)/100, -1/50, 3/200, -1/200, 0, 1/50, -1/100] (1/20) =
      -17/1000 := by
  norm_num [npQuantile, List.insertionSort, List.orderedInsert]

/-! ## Lemmas about `historical_var` -/

/-- Closed form of `historical_var` in simple-return, left-tail mode. -/
theorem historical_var_simple_left (returns : List ℚ) (confidence : ℚ)
    (horizon : ℕ) (hne : returns ≠ []) (h0 : 0 < confidence)
    (h1 : confidence < 1) (hh : horizon ≠ 0) :
    historical_var returns confidence horizon "simple" "left" =
      .ok ⟨-((npQuantile returns (1 - confidence) : ℚ) *
              Real.sqrt (horizon : ℝ)),
           confidence, horizon, npQuantile returns (1 - confidence)⟩ := by
  unfold historical_var
  rw [if_neg (by push_neg; exact ⟨h0, h1⟩), if_neg hh, if_neg hne,
    if_neg (by decide), if_neg (by decide)]
  simp only [if_neg (show ¬("left" : String) = "right" by decide),
    if_neg (show ¬("simple" : String) = "log" by decide)]

/-- Closed form of `parametric_var` in simple-return, left-tail mode. -/
theorem parametric_var_simple_left (returns : List ℚ) (confidence : ℚ)
    (horizon : ℕ) (hne : returns ≠ []) (h0 : 0 < confidence)
    (h1 : confidence < 1) (hh : horizon ≠ 0) :
    parametric_var returns confidence horizon "simple" "left" =
      .ok ⟨-(((listMean returns : ℝ) + acklamPPF (1 - confidence) *
              (if 1 < returns.length then Real.sqrt ((sampleVariance returns : ℚ) : ℝ) else 0)) *
            Real.sqrt (horizon : ℝ)),
           confidence, horizon, listMean returns,
           (if 1 < returns.length then Real.sqrt ((sampleVariance returns : ℚ) : ℝ) else 0),
           acklamPPF (1 - confidence)⟩ := by
  have hppf : normal_ppf (1 - confidence) = .ok (acklamPPF (1 - confidence)) := by
    unfold normal_ppf
    rw [if_neg (by push_neg; constructor <;> linarith)]
  unfold parametric_var
  rw [if_neg (by push_neg; exact ⟨h0, h1⟩), if_neg hh, if_neg hne,
    if_neg (by decide), if_neg (by decide)]
  simp only [if_neg (show ¬("left" : String) = "right" by decide), hppf,
    if_neg (show ¬("simple" : String) = "log" by decide)]

/-- C3: for every non-empty return series and confidence in (0,1), left-tail
historical VaR (simple-return mode) equals the negated left-tail empirical
quantile of the √horizon-scaled returns; it is positive exactly when that
quantile is negative (an actual loss), which is the amended form of the
"reported as a positive number" sign convention. -/
theorem c3_historical_var_negated_scaled_quantile (returns : List ℚ)
    (confidence : ℚ) (horizon : ℕ) (hne : returns ≠ [])
    (h0 : 0 < confidence) (h1 : confidence < 1) (hh : horizon ≠ 0) :
    ∃ r, historical_var returns confidence horizon "simple" "left" = .ok r ∧
      r.var = -(npQuantile
        (returns.map (fun x : ℚ => (x : ℝ) * Real.sqrt (horizon : ℝ)))
        (1 - (confidence : ℝ))) ∧
      (0 < r.var ↔ r.quantile < 0) := by
  refine ⟨_, historical_var_simple_left returns confidence horizon hne h0 h1 hh,
    ?_, ?_⟩
  · have hmap : returns.map (fun x : ℚ => (x : ℝ) * Real.sqrt (horizon : ℝ)) =
        (returns.map (fun x : ℚ => (x : ℝ))).map
          (fun y : ℝ => y * Real.sqrt (horizon : ℝ)) := by
      rw [List.map_map]
      rfl
    rw [hmap, npQuantile_map_mul _ _ _ (Real.sqrt_nonneg _)]
    have hc : (1 : ℝ) - (confidence : ℝ) = (((1 - confidence : ℚ)) : ℝ) := by
      push_cast
      ring
    rw [hc, npQuantile_map_ratCast]
  · have hsq : 0 < Real.sqrt (horizon : ℝ) :=
      Real.sqrt_pos.mpr (by exact_mod_cast Nat.pos_of_ne_zero hh)
    dsimp only
    constructor
    · intro hv
      by_contra hq
      push_neg at hq
      have hq' : (0 : ℝ) ≤ (npQuantile returns (1 - confidence) : ℚ) := by
        exact_mod_cast hq
      nlinarith
    · intro hq
      have hq' : ((npQuantile returns (1 - confidence) : ℚ) : ℝ) < 0 := by
        exact_mod_cast hq
      nlinarith

/-- C3 counterexample to the literal claim: for the all-gains sample
`[0.01]` at confidence 0.5, the reported left-tail historical VaR is
`-0.01`, a negative number, so VaR is not always reported positive. -/
theorem c3_counterexample_var_negative :
    (historical_var [(1:ℚ)/100] (1/2) 1 "simple" "left").map
        HistoricalVaRResult.var = .ok (-(1/100 : ℝ)) ∧
      ¬(0 < (-(1/100 : ℝ))) := by
  constructor
  · rw [historical_var_simple_left [(1:ℚ)/100] (1/2) 1 (by decide)
      (by norm_num) (by norm_num) (by decide)]
    have hq : npQuantile [(1:ℚ)/100] (1 - 1/2) = 1/100 := by
      norm_num [npQuantile, List.insertionSort, List.orderedInsert]
    rw [Except.map, hq]
    norm_num [Real.sqrt_one]
  · norm_num

/-- C3 witness: the theorem applied to the sample `[0.01, -0.02]` at
confidence 0.5, horizon 1. -/
theorem c3_historical_var_negated_scaled_quantile_witness :
    ∃ r, historical_var [(1:ℚ)/100, -1/50] (1/2) 1 "simple" "left" = .ok r ∧
      r.var = -(npQuantile
        ([(1:ℚ)/100, -1/50].map (fun x : ℚ => (x : ℝ) * Real.sqrt ((1:ℕ) : ℝ)))
        (1 - ((1/2 : ℚ) : ℝ))) ∧
      (0 < r.var ↔ r.quantile < 0) :=
  c3_historical_var_negated_scaled_quantile [(1:ℚ)/100, -1/50] (1/2) 1
    (by decide) (by norm_num) (by norm_num) (by decide)

/-- C5: on the sample
`[0.01, -0.02, 0.015, -0.005, 0.0, 0.02, -0.01]` with confidence 0.95 and
horizon 1 (simple returns, left tail), `historical_var` returns exactly the
negation of the linearly interpolated 5th percentile of the sample: the
quantile is −0.017 and the VaR is 0.017. -/
theorem c5_historical_var_concrete_sample :
    historical_var [(1:ℚ)/100, -1/50, 3/200, -1/200, 0, 1/50, -1/100]
        (19/20) 1 "simple" "left" =
      .ok ⟨(17/1000 : ℝ), 19/20, 1, -17/1000⟩ := by
  rw [historical_var_simple_left _ _ _ (by decide) (by norm_num) (by norm_num)
    (by decide)]
  have hq : npQuantile [(1:ℚ)/100, -1/50, 3/200, -1/200, 0, 1/50, -1/100]
      (1 - 19/20) = -17/1000 := by
    have h1 : (1 : ℚ) - 19/20 = 1/20 := by norm_num
    rw [h1]
    exact npQuantile_c5_sample
  rw [hq]
  norm_num [Real.sqrt_one]

/-- C8: on a fixed sample, in simple-return left-tail mode, both historical
and parametric VaR scale exactly as √horizon: `VaR(h) = VaR(1)·√h`. -/
theorem c8_var_sqrt_horizon_scaling (returns : List ℚ) (confidence : ℚ)
    (horizon : ℕ) (hne : returns ≠ []) (h0 : 0 < confidence)
    (h1 : confidence < 1) (hh : horizon ≠ 0) :
    ∃ r1 rh p1 ph,
      historical_var returns confidence 1 "simple" "left" = .ok r1 ∧
      historical_var returns confidence horizon "simple" "left" = .ok rh ∧
      rh.var = r1.var * Real.sqrt (horizon : ℝ) ∧
      parametric_var returns confidence 1 "simple" "left" = .ok p1 ∧
      parametric_var returns confidence horizon "simple" "left" = .ok ph ∧
      ph.var = p1.var * Real.sqrt (horizon : ℝ) := by
  refine ⟨_, _, _, _,
    historical_var_simple_left returns confidence 1 hne h0 h1 one_ne_zero,
    historical_var_simple_left returns confidence horizon hne h0 h1 hh, ?_,
    parametric_var_simple_left returns confidence 1 hne h0 h1 one_ne_zero,
    parametric_var_simple_left returns confidence horizon hne h0 h1 hh, ?_⟩
  · simp only [Nat.cast_one, Real.sqrt_one]
    ring
  · simp only [Nat.cast_one, Real.sqrt_one]
    ring

/-- C8 witness: the scaling law applied to the sample `[0.01, -0.02]` at
confidence 0.5 and horizon 4. -/
theorem c8_var_sqrt_horizon_scaling_witness :
    ∃ r1 rh p1 ph,
      historical_var [(1:ℚ)/100, -1/50] (1/2) 1 "simple" "left" = .ok r1 ∧
      historical_var [(1:ℚ)/100, -1/50] (1/2) 4 "simple" "left" = .ok rh ∧
      rh.var = r1.var * Real.sqrt ((4:ℕ) : ℝ) ∧
      parametric_var [(1:ℚ)/100, -1/50] (1/2) 1 "simple" "left" = .ok p1 ∧
      parametric_var [(1:ℚ)/100, -1/50] (1/2) 4 "simple" "left" = .ok ph ∧
      ph.var = p1.var * Real.sqrt ((4:ℕ) : ℝ) :=
  c8_var_sqrt_horizon_scaling [(1:ℚ)/100, -1/50] (1/2) 4
    (by decide) (by norm_num) (by norm_num) (by decide)

/-! ## Lemmas about shock application -/

/-- `find?` over the replace branch of `dictInsert`. -/
theorem find?_map_replace (fs : List (String × ℚ)) (k : String) (w : ℚ) :
    ((fs.map (fun p => if p.1 = k then (k, w) else p)).find?
        (fun p => p.1 = k)) =
      if fs.any (fun p => p.1 = k) then some (k, w) else none := by
  induction fs with
  | nil => rfl
  | cons p rest ih =>
    simp only [List.map_cons, List.any_cons]
    by_cases hp : p.1 = k
    · rw [if_pos hp, List.find?_cons_of_pos _ (by simp)]
      rw [if_pos (by simp [hp])]
    · rw [if_neg hp, List.find?_cons_of_neg _ (by simpa using hp), ih]
      congr 1
      simp [hp]

/-- `find?` over the append branch of `dictInsert`. -/
theorem find?_append_single (fs : List (String × ℚ)) (k : String) (w : ℚ)
    (h : fs.any (fun p => p.1 = k) = false) :
    ((fs ++ [(k, w)]).find? (fun p => p.1 = k)) = some (k, w) := by
  induction fs with
  | nil => simp [List.find?]
  | cons p rest ih =>
    simp only [List.any_cons, Bool.or_eq_false_iff] at h
    rw [List.cons_append, List.find?_cons_of_neg _ (by simpa using h.1)]
    exact ih h.2

/-- Looking up the just-inserted key returns the inserted value. -/
theorem lookupFactor_dictInsert_self (fs : List (String × ℚ)) (k : String)
    (w : ℚ) : lookupFactor (dictInsert fs k w) k = some w := by
  unfold dictInsert lookupFactor
  by_cases h : fs.any (fun p => p.1 = k)
  · rw [if_pos h, find?_map_replace, if_pos h]
    rfl
  · rw [if_neg h, find?_append_single fs k w (by rwa [Bool.not_eq_true] at h)]
    rfl

/-- Inserting an already-present key leaves the key list unchanged. -/
theorem dictInsert_keys_of_mem (fs : List (String × ℚ)) (k : String) (w : ℚ)
    (h : k ∈ fs.map Prod.fst) :
    (dictInsert fs k w).map Prod.fst = fs.map Prod.fst := by
  unfold dictInsert
  have hany : fs.any (fun p => p.1 = k) := by
    rw [List.any_eq_true]
    rcases List.mem_map.mp h with ⟨p, hp, hk⟩
    exact ⟨p, hp, by simpa using hk⟩
  rw [if_pos hany, List.map_map]
  apply List.map_congr_left
  intro p hp
  by_cases hpk : p.1 = k
  · simp [hpk]
  · simp [hpk]

/-- Every key of `dictInsert fs k w` is a key of `fs` or is `k`. -/
theorem dictInsert_key_cases (fs : List (String × ℚ)) (k : String) (w : ℚ)
    (kv : String × ℚ) (h : kv ∈ dictInsert fs k w) :
    kv.1 ∈ fs.map Prod.fst ∨ kv.1 = k := by
  unfold dictInsert at h
  by_cases hany : fs.any (fun p => p.1 = k)
  · rw [if_pos hany] at h
    rcases List.mem_map.mp h with ⟨p, hp, hrepl⟩
    by_cases hpk : p.1 = k
    · right
      rw [if_pos hpk] at hrepl
      rw [← hrepl]
    · left
      rw [if_neg hpk] at hrepl
      exact hrepl ▸ List.mem_map.mpr ⟨p, hp, rfl⟩
  · rw [if_neg hany] at h
    rcases List.mem_append.mp h with hmem | hmem
    · exact Or.inl (List.mem_map.mpr ⟨kv, hmem, rfl⟩)
    · right
      rcases List.mem_singleton.mp hmem with rfl
      rfl

/-- A key that is present has a lookup value. -/
theorem lookupFactor_isSome_of_mem (fs : List (String × ℚ)) (k : String)
    (h : k ∈ fs.map Prod.fst) : ∃ v, lookupFactor fs k = some v := by
  rcases List.mem_map.mp h with ⟨p, hp, hk⟩
  have : (fs.find? (fun q => q.1 = k)).isSome := by
    rw [List.find?_isSome]
    exact ⟨p, hp, by simpa using hk⟩
  rcases Option.isSome_iff_exists.mp this with ⟨q, hq⟩
  exact ⟨q.2, by simp [lookupFactor, hq]⟩

/-- `buildUpdates` succeeds when every shocked key is present and every
shock type is known, and all update keys come from the state. -/
theorem buildUpdates_ok (state : MarketState) (shocks : List Shock) :
    ∀ acc : List (String × ℚ),
    (∀ x ∈ acc.map Prod.fst, x ∈ state.factors.map Prod.fst) →
    (∀ s ∈ shocks, s.key ∈ state.factors.map Prod.fst) →
    (∀ s ∈ shocks, s.shock_type = "abs" ∨ s.shock_type = "rel") →
    ∃ ups, buildUpdates state acc shocks = .ok ups ∧
      ∀ x ∈ ups.map Prod.fst, x ∈ state.factors.map Prod.fst := by
  induction shocks with
  | nil => exact fun acc hacc _ _ => ⟨acc, rfl, hacc⟩
  | cons s rest ih =>
    intro acc hacc hkeys htypes
    have hk : s.key ∈ state.factors.map Prod.fst := hkeys s (by simp)
    rcases lookupFactor_isSome_of_mem _ _ hk with ⟨b, hb⟩
    have hget : state.get s.key = .ok b := by
      unfold MarketState.get
      rw [hb]
    have haccStep : ∀ w : ℚ, ∀ x ∈ (dictInsert acc s.key w).map Prod.fst,
        x ∈ state.factors.map Prod.fst := by
      intro w x hx
      rcases List.mem_map.mp hx with ⟨kv, hkv, hfst⟩
      rcases dictInsert_key_cases acc s.key w kv hkv with hmem | hkey
      · exact hfst ▸ hacc kv.1 hmem
      · rw [← hfst, hkey]
        exact hk
    rcases htypes s (by simp) with hty | hty
    · rcases ih (dictInsert acc s.key (b + s.value)) (haccStep _)
        (fun t ht => hkeys t (by simp [ht]))
        (fun t ht => htypes t (by simp [ht])) with ⟨ups, hups, hcl⟩
      refine ⟨ups, ?_, hcl⟩
      unfold buildUpdates
      rw [hget]
      simp only [hty, if_pos rfl]
      exact hups
    · rcases ih (dictInsert acc s.key (b * (1 + s.value))) (haccStep _)
        (fun t ht => hkeys t (by simp [ht]))
        (fun t ht => htypes t (by simp [ht])) with ⟨ups, hups, hcl⟩
      refine ⟨ups, ?_, hcl⟩
      unfold buildUpdates
      rw [hget]
      by_cases habs : s.shock_type = "abs"
      · rw [hty] at habs
        exact absurd habs (by decide)
      · simp only [habs, if_false, hty, if_pos rfl]
        exact hups

/-- Folding `dictInsert` over updates whose keys are all present leaves the
key list unchanged. -/
theorem foldl_dictInsert_keys (ups : List (String × ℚ)) :
    ∀ base : List (String × ℚ),
    (∀ x ∈ ups.map Prod.fst, x ∈ base.map Prod.fst) →
    ((ups.foldl (fun fs kv => dictInsert fs kv.1 kv.2) base).map Prod.fst) =
      base.map Prod.fst := by
  induction ups with
  | nil => exact fun base _ => rfl
  | cons kv rest ih =>
    intro base h
    have hkeys := dictInsert_keys_of_mem base kv.1 kv.2 (h kv.1 (by simp))
    simp only [List.foldl_cons]
    rw [ih (dictInsert base kv.1 kv.2)
      (fun t ht => by rw [hkeys]; exact h t (by simp [ht]))]
    exact hkeys

/-- C2 (amended): `apply_shocks` succeeds when every shocked key is already
present in the base state (and shock types are known), and then the result
keys equal the base keys — which also makes them the union of base and
shock keys.  A shock on an absent key does NOT introduce the key: it raises
a missing-factor error (see the counterexample). -/
theorem c2_apply_shocks_union_keys (state : MarketState) (ss : ShockSet)
    (hkeys : ∀ s ∈ ss.shocks, s.key ∈ state.factors.map Prod.fst)
    (htypes : ∀ s ∈ ss.shocks, s.shock_type = "abs" ∨ s.shock_type = "rel") :
    ∃ st', apply_shocks state ss = .ok st' ∧
      st'.factors.map Prod.fst = state.factors.map Prod.fst ∧
      ∀ k, k ∈ st'.factors.map Prod.fst ↔
        (k ∈ state.factors.map Prod.fst ∨ k ∈ ss.shocks.map Shock.key) := by
  rcases buildUpdates_ok state ss.shocks [] (by simp) hkeys htypes with
    ⟨ups, hups, hcl⟩
  have hkeyseq : (state.with_factors ups).factors.map Prod.fst =
      state.factors.map Prod.fst :=
    foldl_dictInsert_keys ups state.factors hcl
  refine ⟨state.with_factors ups, ?_, hkeyseq, ?_⟩
  · unfold apply_shocks
    rw [hups]
    rfl
  · intro k
    rw [hkeyseq]
    constructor
    · exact Or.inl
    · rintro (hk | hk)
      · exact hk
      · rcases List.mem_map.mp hk with ⟨s, hs, hkey⟩
        exact hkey ▸ hkeys s hs

/-- C2 counterexample to the literal claim: shocking the absent key `B` of a
state holding only `A` raises the missing-factor error instead of
introducing `B` as a new factor. -/
theorem c2_counterexample_absent_key_raises :
    apply_shocks ⟨[("A", 1)]⟩ ⟨[⟨"B", "abs", 1⟩]⟩ =
      .error "Missing market factor B" := by
  rfl

/-- C2 witness: the amended theorem applied to a one-factor state shocked on
its own key. -/
theorem c2_apply_shocks_union_keys_witness :
    ∃ st', apply_shocks ⟨[("A", 1)]⟩ ⟨[⟨"A", "abs", 2⟩]⟩ = .ok st' ∧
      st'.factors.map Prod.fst =
        (MarketState.mk [("A", 1)]).factors.map Prod.fst ∧
      ∀ k, k ∈ st'.factors.map Prod.fst ↔
        (k ∈ (MarketState.mk [("A", 1)]).factors.map Prod.fst ∨
          k ∈ (ShockSet.mk [⟨"A", "abs", 2⟩]).shocks.map Shock.key) :=
  c2_apply_shocks_union_keys ⟨[("A", 1)]⟩ ⟨[⟨"A", "abs", 2⟩]⟩
    (by decide) (by decide)

/-- C6: on a state whose factor `k` has base value `b`, a single additive
shock of size `v` yields value `b + v` at `k`, a single relative shock
yields `b * (1 + v)`, and an unknown shock type raises the
configuration error. -/
theorem c6_additive_relative_shocks (st : MarketState) (k : String)
    (b v : ℚ) (hb : lookupFactor st.factors k = some b) :
    (∃ s1, apply_shocks st ⟨[⟨k, "abs", v⟩]⟩ = .ok s1 ∧
        lookupFactor s1.factors k = some (b + v)) ∧
    (∃ s2, apply_shocks st ⟨[⟨k, "rel", v⟩]⟩ = .ok s2 ∧
        lookupFactor s2.factors k = some (b * (1 + v))) ∧
    (∀ ty, ty ≠ "abs" → ty ≠ "rel" →
      apply_shocks st ⟨[⟨k, ty, v⟩]⟩ =
        .error ("Unknown shock_type: " ++ ty)) := by
  have hget : st.get k = .ok b := by
    unfold MarketState.get
    rw [hb]
  refine ⟨⟨st.with_factors [(k, b + v)], ?_, ?_⟩,
    ⟨st.with_factors [(k, b * (1 + v))], ?_, ?_⟩, ?_⟩
  · show (buildUpdates st [] [⟨k, "abs", v⟩]).map st.with_factors = _
    unfold buildUpdates
    dsimp only
    rw [hget]
    simp only [if_pos rfl]
    rfl
  · exact lookupFactor_dictInsert_self st.factors k (b + v)
  · show (buildUpdates st [] [⟨k, "rel", v⟩]).map st.with_factors = _
    unfold buildUpdates
    dsimp only
    rw [hget]
    dsimp only
    rw [if_neg (show ¬("rel" : String) = "abs" by decide), if_pos rfl]
    rfl
  · exact lookupFactor_dictInsert_self st.factors k (b * (1 + v))
  · intro ty hab hrel
    show (buildUpdates st [] [⟨k, ty, v⟩]).map st.with_factors = _
    unfold buildUpdates
    dsimp only
    rw [hget]
    dsimp only
    rw [if_neg hab, if_neg hrel]
    rfl

/-- C6 witness: the theorem applied to the state holding `S = 100` with
shock size 5. -/
theorem c6_additive_relative_shocks_witness :
    (∃ s1, apply_shocks ⟨[("S", 100)]⟩ ⟨[⟨"S", "abs", 5⟩]⟩ = .ok s1 ∧
        lookupFactor s1.factors "S" = some (100 + 5)) ∧
    (∃ s2, apply_shocks ⟨[("S", 100)]⟩ ⟨[⟨"S", "rel", 5⟩]⟩ = .ok s2 ∧
        lookupFactor s2.factors "S" = some (100 * (1 + 5))) ∧
    (∀ ty, ty ≠ "abs" → ty ≠ "rel" →
      apply_shocks ⟨[("S", 100)]⟩ ⟨[⟨"S", ty, 5⟩]⟩ =
        .error ("Unknown shock_type: " ++ ty)) :=
  c6_additive_relative_shocks ⟨[("S", 100)]⟩ "S" 100 5 (by decide)

/-! ## Lemmas about scenario PFE -/

/-- Closed form of `scenario_pfe` on 1-D input: the `netting` flag is only
echoed into the result, never consulted. -/
theorem scenario_pfe_one_dim (data : List ℚ) (confidence : ℚ)
    (horizon : Option ℤ) (threshold : ℚ) (netting : Bool) (hne : data ≠ [])
    (h0 : 0 < confidence) (h1 : confidence < 1) :
    scenario_pfe (.one data) confidence horizon threshold netting =
      .ok ⟨npQuantile (data.map (fun x => max (x - threshold) 0)) confidence,
        confidence, horizon,
        npQuantile (data.map (fun x => max (x - threshold) 0)) confidence,
        threshold, netting, data.length⟩ := by
  unfold scenario_pfe scenario_exposures
  dsimp only
  rw [if_neg (by push_neg; exact ⟨h0, h1⟩), if_neg hne]
  dsimp only
  rw [List.length_map]

/-- C9 (amended): on 1-D scenario PnLs the two netting modes return results
that agree in every numeric field (pfe, quantile, confidence, horizon,
threshold, scenario count); the result records differ only in the echoed
`netting` flag. -/
theorem c9_netting_irrelevant_for_1d (data : List ℚ) (confidence : ℚ)
    (horizon : Option ℤ) (threshold : ℚ) (hne : data ≠ [])
    (h0 : 0 < confidence) (h1 : confidence < 1) :
    ∃ q, scenario_pfe (.one data) confidence horizon threshold true =
        .ok ⟨q, confidence, horizon, q, threshold, true, data.length⟩ ∧
      scenario_pfe (.one data) confidence horizon threshold false =
        .ok ⟨q, confidence, horizon, q, threshold, false, data.length⟩ :=
  ⟨npQuantile (data.map (fun x => max (x - threshold) 0)) confidence,
    scenario_pfe_one_dim data confidence horizon threshold true hne h0 h1,
    scenario_pfe_one_dim data confidence horizon threshold false hne h0 h1⟩

/-- C9 counterexample to the literal claim: even on 1-D input the two
returned `ScenarioPFEResult` records are not identical, because the result
echoes the `netting` flag that was passed in. -/
theorem c9_counterexample_results_not_identical :
    scenario_pfe (.one [1]) (1/2) (some 1) 0 true ≠
      scenario_pfe (.one [1]) (1/2) (some 1) 0 false := by
  rw [scenario_pfe_one_dim [1] (1/2) (some 1) 0 true (by decide)
      (by norm_num) (by norm_num),
    scenario_pfe_one_dim [1] (1/2) (some 1) 0 false (by decide)
      (by norm_num) (by norm_num)]
  simp

/-- C9 witness: the amended theorem applied to the 1-D PnL set `[5]` with
confidence 0.5 and threshold 1. -/
theorem c9_netting_irrelevant_for_1d_witness :
    ∃ q, scenario_pfe (.one [5]) (1/2) none 1 true =
        .ok ⟨q, 1/2, none, q, 1, true, [(5:ℚ)].length⟩ ∧
      scenario_pfe (.one [5]) (1/2) none 1 false =
        .ok ⟨q, 1/2, none, q, 1, false, [(5:ℚ)].length⟩ :=
  c9_netting_irrelevant_for_1d [5] (1/2) none 1 (by decide)
    (by norm_num) (by norm_num)

/-! ## Lemmas about grid validation -/

/-- The defaulted last element of a non-empty list is a member. -/
theorem getLastD_mem_of_ne_nil (l : List ℚ) (hl : l ≠ []) (d : ℚ) :
    l.getLastD d ∈ l := by
  rw [List.getLastD_eq_getLast?, List.getLast?_eq_getLast l hl]
  exact List.getLast_mem hl

/-- In a sorted list the defaulted last element is an upper bound. -/
theorem sorted_le_getLastD (l : List ℚ) (hl : l.Sorted (· ≤ ·)) (d : ℚ) :
    ∀ x ∈ l, x ≤ l.getLastD d := by
  induction l generalizing d with
  | nil => intro x hx; exact absurd hx (List.not_mem_nil x)
  | cons a rest ih =>
    intro x hx
    rw [List.getLastD_cons]
    rcases List.mem_cons.mp hx with rfl | hx2
    · cases rest with
      | nil => simp [List.getLastD]
      | cons b rest2 =>
        exact (List.sorted_cons.mp hl).1 _
          (getLastD_mem_of_ne_nil (b :: rest2) (by simp) x)
    · exact ih (List.sorted_cons.mp hl).2 a x hx2

/-- The defaulted head of a non-empty list is a member. -/
theorem headD_mem_of_ne_nil (l : List ℚ) (hl : l ≠ []) (d : ℚ) :
    l.headD d ∈ l := by
  cases l with
  | nil => exact absurd rfl hl
  | cons a rest => simp [List.headD]

/-- Banker's rounding is the identity on integers. -/
theorem roundHalfEven_intCast (n : ℤ) : roundHalfEven (n : ℚ) = n := by
  unfold roundHalfEven
  rw [Int.floor_intCast]
  rw [if_pos (by norm_num)]

/-- `np.isclose` always accepts exact equality. -/
theorem iscloseQ_self (a : ℚ) : iscloseQ a a = true := by
  unfold iscloseQ
  rw [sub_self, abs_zero]
  apply decide_eq_true
  positivity

/-- Membership transfers through `insertionSort`. -/
theorem mem_insertionSort_iff (l : List ℚ) (x : ℚ) :
    x ∈ List.insertionSort (· ≤ ·) l ↔ x ∈ l :=
  (List.perm_insertionSort _ l).mem_iff

/-- A misaligned horizon (by the source's own `np.isclose` test on
`horizon / dt` against Python `round`) forces `_validate_horizons` to raise
some error. -/
theorem validate_horizons_error_of_misaligned (horizons : List ℚ) (dt : ℚ)
    (hmis : ∃ h ∈ horizons,
      iscloseQ (h / dt) ((roundHalfEven (h / dt) : ℤ) : ℚ) = false) :
    ∃ msg, validate_horizons horizons dt = .error msg := by
  rcases hmis with ⟨h, hmem, hfail⟩
  unfold validate_horizons
  dsimp only
  split_ifs with h1 h2 h3 h4 h5 h6
  · exact ⟨_, rfl⟩
  · exact ⟨_, rfl⟩
  · exact ⟨_, rfl⟩
  · exact ⟨_, rfl⟩
  · exact ⟨_, rfl⟩
  · exfalso
    have hmem' : h ∈ List.insertionSort (· ≤ ·) horizons :=
      (mem_insertionSort_iff horizons h).mpr hmem
    have := List.all_eq_true.mp h6 h hmem'
    rw [hfail] at this
    exact Bool.false_ne_true this
  · exact ⟨_, rfl⟩

/-- A grid of exact multiples of `dt` (with a positive `dt`, at least one
horizon, and some nonzero multiple) always passes `_validate_horizons`. -/
theorem validate_horizons_ok_of_exact (ks : List ℕ) (dt : ℚ) (hdt : 0 < dt)
    (hne : ks ≠ []) (hpos : ∃ k ∈ ks, k ≠ 0) :
    ∃ res, validate_horizons (ks.map (fun k : ℕ => (k : ℚ) * dt)) dt =
      .ok res := by
  have hdt' : dt ≠ 0 := ne_of_gt hdt
  set L := ks.map (fun k : ℕ => (k : ℚ) * dt) with hL
  set times := List.insertionSort (· ≤ ·) L with htimes
  have hLne : L ≠ [] := by
    rw [hL]
    intro hmape
    exact hne (List.map_eq_nil_iff.mp hmape)
  have htimesNe : times ≠ [] := by
    intro hnil
    have hp := List.perm_insertionSort (· ≤ ·) L
    rw [htimes] at hnil
    rw [hnil] at hp
    exact hLne (hp.symm.eq_nil)
  have hmemL : ∀ x ∈ times, ∃ k : ℕ, k ∈ ks ∧ x = (k : ℚ) * dt := by
    intro x hx
    have : x ∈ L := (List.perm_insertionSort (· ≤ ·) L).mem_iff.mp (htimes ▸ hx)
    rcases List.mem_map.mp this with ⟨k, hk, hkx⟩
    exact ⟨k, hk, hkx.symm⟩
  have hnonneg : ∀ x ∈ times, 0 ≤ x := by
    intro x hx
    rcases hmemL x hx with ⟨k, _, rfl⟩
    positivity
  have hround : ∀ x ∈ times,
      iscloseQ (x / dt) ((roundHalfEven (x / dt) : ℤ) : ℚ) = true := by
    intro x hx
    rcases hmemL x hx with ⟨k, hk, rfl⟩
    have hdiv : (k : ℚ) * dt / dt = (k : ℚ) := by
      field_simp
    rw [hdiv]
    rw [show ((k : ℚ)) = ((k : ℤ) : ℚ) by push_cast; ring]
    rw [roundHalfEven_intCast]
    exact iscloseQ_self _
  have hmaxMem : times.getLastD 0 ∈ times := getLastD_mem_of_ne_nil _ htimesNe 0
  have hmaxPos : 0 < times.getLastD 0 := by
    rcases hpos with ⟨k0, hk0, hk0ne⟩
    have hk0mem : ((k0 : ℚ) * dt) ∈ times := by
      rw [htimes, mem_insertionSort_iff, hL]
      exact List.mem_map.mpr ⟨k0, hk0, rfl⟩
    have hle := sorted_le_getLastD times
      (htimes ▸ List.sorted_insertionSort (· ≤ ·) L) 0 _ hk0mem
    have : 0 < (k0 : ℚ) * dt := by
      have : 0 < (k0 : ℚ) := by
        exact_mod_cast Nat.pos_of_ne_zero hk0ne
      positivity
    linarith
  have hmaxClose : iscloseQ (times.getLastD 0)
      (((roundHalfEven (times.getLastD 0 / dt) : ℤ) : ℚ) * dt) = true := by
    rcases hmemL _ hmaxMem with ⟨km, _, hkm⟩
    rw [hkm]
    have hdiv : (km : ℚ) * dt / dt = (km : ℚ) := by
      field_simp
    rw [hdiv, show ((km : ℚ)) = ((km : ℤ) : ℚ) by push_cast; ring,
      roundHalfEven_intCast]
    exact iscloseQ_self _
  have hall : (times.all
      (fun h => iscloseQ (h / dt) ((roundHalfEven (h / dt) : ℤ) : ℚ))) = true := by
    rw [List.all_eq_true]
    intro x hx
    exact hround x hx
  unfold validate_horizons
  dsimp only
  rw [← htimes]
  split_ifs with h1 h2 h3 h4
  · exact ⟨([], 0), absurd h1 (not_le.mpr hdt)⟩
  · exact ⟨([], 0),
      absurd h2 (not_lt.mpr (hnonneg _ (headD_mem_of_ne_nil _ htimesNe 0)))⟩
  · exact ⟨([], 0), absurd h3 (ne_of_gt hmaxPos)⟩
  · rw [hmaxClose] at h4
    exact ⟨([], 0), Bool.noConfusion h4⟩
  · exact ⟨_, rfl⟩

/-- C4: Monte Carlo PFE grid validation — `horizons=[0.5, 1.0], dt=1.0`
raises the alignment error while `horizons=[1.0, 2.0], dt=1.0` succeeds;
in general a horizon failing the `np.isclose(h/dt, round(h/dt))` test
forces an error, and any non-empty grid of exact multiples of a positive
`dt` (with a positive maximum) is accepted. -/
theorem c4_horizon_grid_alignment :
    validate_horizons [(1:ℚ)/2, 1] 1 = .error "all horizons must align with dt" ∧
    (∃ res, validate_horizons [(1:ℚ), 2] 1 = .ok res) ∧
    (∀ (horizons : List ℚ) (dt : ℚ),
      (∃ h ∈ horizons,
        iscloseQ (h / dt) ((roundHalfEven (h / dt) : ℤ) : ℚ) = false) →
      ∃ msg, validate_horizons horizons dt = .error msg) ∧
    (∀ (ks : List ℕ) (dt : ℚ), 0 < dt → ks ≠ [] → (∃ k ∈ ks, k ≠ 0) →
      ∃ res, validate_horizons (ks.map (fun k : ℕ => (k : ℚ) * dt)) dt =
        .ok res) := by
  refine ⟨?_, ?_, validate_horizons_error_of_misaligned,
    validate_horizons_ok_of_exact⟩
  · norm_num [validate_horizons, List.insertionSort, List.orderedInsert,
      roundHalfEven, iscloseQ, List.getLastD, List.headD,
      decide_eq_false_iff_not, decide_eq_true_eq]
    rw [if_neg (show ¬([(1:ℚ)/2, 1] = []) by simp)]
    norm_num [Int.fract]
    intro hcontra
    rw [abs_of_pos (show (0:ℚ) < 1/2 by norm_num)] at hcontra
    norm_num at hcontra
  · have hform : [(1:ℚ), 2] = [1, 2].map (fun k : ℕ => (k : ℚ) * 1) := by
      norm_num
    rw [hform]
    exact validate_horizons_ok_of_exact [1, 2] 1 (by norm_num) (by decide)
      ⟨2, by norm_num, by decide⟩

/-- C4 witness: the exact-multiple branch applied to `ks=[1, 3]`,
`dt = 1/2`, discharging all hypotheses concretely. -/
theorem c4_horizon_grid_alignment_witness :
    ∃ res, validate_horizons
      ([1, 3].map (fun k : ℕ => (k : ℚ) * (1/2))) (1/2) = .ok res :=
  c4_horizon_grid_alignment.2.2.2 [1, 3] (1/2) (by norm_num) (by decide)
    ⟨3, by norm_num, by decide⟩

/-! ## Lemmas about sub-seed derivation -/

/-- The sub-seed of a symbol is the draw at its position in the
configuration order. -/
theorem seedAssign_positional (stream : ℕ → ℕ) (xs : List String) :
    ∀ (i : ℕ) (ys : List String) (s : String), s ∉ xs →
    subSeedOf (seedAssign stream i (xs ++ s :: ys)) s =
      some (stream (i + xs.length)) := by
  induction xs with
  | nil =>
    intro i ys s _
    show subSeedOf ((s, stream i) :: seedAssign stream (i + 1) ys) s =
      some (stream (i + List.length []))
    unfold subSeedOf
    rw [List.find?_cons_of_pos _ (by simp)]
    rfl
  | cons a rest ih =>
    intro i ys s hs
    have has : ¬(a = s) := fun h => hs (h ▸ List.mem_cons_self a rest)
    have hs' : s ∉ rest := fun h => hs (List.mem_cons_of_mem a h)
    show subSeedOf ((a, stream i) ::
      seedAssign stream (i + 1) (rest ++ s :: ys)) s = _
    unfold subSeedOf
    rw [List.find?_cons_of_neg _ (by simpa using has)]
    have hih := ih (i + 1) ys s hs'
    unfold subSeedOf at hih
    rw [hih]
    exact congrArg (fun n => some (stream n))
      (by simp [List.length_cons]; omega)

/-- Appending a new symbol after the existing configuration leaves every
existing symbol's sub-seed unchanged. -/
theorem seedAssign_append_invariant (stream : ℕ → ℕ)
    (symbols : List String) :
    ∀ (i : ℕ) (t s : String), s ∈ symbols →
    subSeedOf (seedAssign stream i (symbols ++ [t])) s =
      subSeedOf (seedAssign stream i symbols) s := by
  induction symbols with
  | nil => intro i t s hs; exact absurd hs (List.not_mem_nil s)
  | cons a rest ih =>
    intro i t s hs
    show subSeedOf ((a, stream i) ::
        seedAssign stream (i + 1) (rest ++ [t])) s =
      subSeedOf ((a, stream i) :: seedAssign stream (i + 1) rest) s
    unfold subSeedOf
    by_cases has : a = s
    · rw [List.find?_cons_of_pos _ (by simp [has]),
        List.find?_cons_of_pos _ (by simp [has])]
    · rw [List.find?_cons_of_neg _ (by simpa using has),
        List.find?_cons_of_neg _ (by simpa using has)]
      have hsrest : s ∈ rest := by
        rcases List.mem_cons.mp hs with h | h
        · exact absurd h.symm has
        · exact h
      have hih := ih (i + 1) t s hsrest
      unfold subSeedOf at hih
      exact hih

/-- C1 (amended): sub-seeds in `monte_carlo_pfe_profile` are positional,
not per-factor: the equity model at position `n` of the configuration
order always receives draw `n` of the top-level generator and the rate
model receives the draw after all equity draws.  Consequently a factor
keeps its sub-seed only when its draw position is unchanged: appending a
new equity symbol AFTER the existing ones preserves all existing equity
sub-seeds, and adding or removing the rate model never touches the equity
sub-seeds — but any insertion or removal that shifts a factor's position
(removing an earlier equity entry, inserting one before it, or the extra
equity draw shifting the rate draw) changes that factor's sub-seed. -/
theorem c1_subseeds_positional (stream : ℕ → ℕ) :
    (∀ (xs ys : List String) (s : String), s ∉ xs →
      subSeedOf (equitySubSeeds stream (xs ++ s :: ys)) s =
        some (stream xs.length)) ∧
    (∀ (symbols : List String) (t s : String), s ∈ symbols →
      subSeedOf (equitySubSeeds stream (symbols ++ [t])) s =
        subSeedOf (equitySubSeeds stream symbols) s) ∧
    (∀ symbols : List String,
      rateSubSeed stream symbols true = some (stream symbols.length) ∧
      rateSubSeed stream symbols false = none) := by
  refine ⟨?_, ?_, ?_⟩
  · intro xs ys s hs
    have := seedAssign_positional stream xs 0 ys s hs
    simpa [equitySubSeeds] using this
  · intro symbols t s hs
    exact seedAssign_append_invariant stream symbols 0 t s hs
  · intro symbols
    exact ⟨rfl, rfl⟩

/-- C1 counterexample to the literal claim: with the identity draw stream,
removing the equity entry `A` from the configuration `[A, B]` changes the
sub-seed of the remaining factor `B` from draw 1 to draw 0, so removing a
risk factor does perturb the remaining factor's randomness. -/
theorem c1_counterexample_removal_shifts_subseed :
    subSeedOf (equitySubSeeds (fun i => i) ["A", "B"]) "B" ≠
      subSeedOf (equitySubSeeds (fun i => i) ["B"]) "B" := by
  decide

/-- C1 witness: the positional law applied to the stream `i ↦ i + 1` and
the configuration `[A, B]`, where `B` sits at position 1. -/
theorem c1_subseeds_positional_witness :
    subSeedOf (equitySubSeeds (fun i => i + 1) (["A"] ++ "B" :: [])) "B" =
      some 2 := by
  have h := (c1_subseeds_positional (fun i => i + 1)).1 ["A"] [] "B"
    (by decide)
  simpa using h

/-! ## Lemmas about the path simulators -/

/-- `simulate_gbm_paths` under valid inputs: shape and initial column. -/
theorem simulate_gbm_paths_ok (shocks : ℕ → ℕ → ℝ) (spot : ℚ)
    (params : GBMParams) (dt : ℚ) (ns np : ℕ) (hspot : 0 < spot)
    (hdt : 0 < dt) (hns : ns ≠ 0) (hnp : np ≠ 0) (hvol : 0 ≤ params.vol) :
    ∃ rows, simulate_gbm_paths shocks spot params dt ns np = .ok rows ∧
      rows.length = np ∧
      ∀ row ∈ rows, row.length = ns + 1 ∧ row.head? = some ((spot : ℚ) : ℝ) := by
  unfold simulate_gbm_paths
  rw [if_neg (not_le.mpr hspot), if_neg (not_le.mpr hdt), if_neg hns,
    if_neg hnp, if_neg (not_lt.mpr hvol)]
  refine ⟨_, rfl, by simp, ?_⟩
  intro row hrow
  rcases List.mem_map.mp hrow with ⟨p, _, rfl⟩
  constructor
  · simp
  · rfl

/-- `simulate_hull_white_paths` under valid inputs: shape and initial
column. -/
theorem simulate_hull_white_paths_ok (shocks : ℕ → ℕ → ℝ) (rate : ℚ)
    (params : HullWhiteParams) (dt : ℚ) (ns np : ℕ) (hdt : 0 < dt)
    (hns : ns ≠ 0) (hnp : np ≠ 0) (ha : 0 ≤ params.mean_reversion)
    (hvol : 0 ≤ params.vol) :
    ∃ rows, simulate_hull_white_paths shocks rate params dt ns np = .ok rows ∧
      rows.length = np ∧
      ∀ row ∈ rows, row.length = ns + 1 ∧ row.head? = some ((rate : ℚ) : ℝ) := by
  unfold simulate_hull_white_paths
  rw [if_neg (not_le.mpr hdt), if_neg hns, if_neg hnp,
    if_neg (not_lt.mpr ha), if_neg (not_lt.mpr hvol)]
  refine ⟨_, rfl, by simp, ?_⟩
  intro row hrow
  rcases List.mem_map.mp hrow with ⟨p, _, rfl⟩
  constructor
  · simp
  · rw [List.range_succ_eq_map, List.map_cons]
    rfl

/-- `simulate_vasicek_paths` under valid inputs: shape and initial column. -/
theorem simulate_vasicek_paths_ok (shocks : ℕ → ℕ → ℝ) (rate : ℚ)
    (params : VasicekParams) (dt : ℚ) (ns np : ℕ) (hdt : 0 < dt)
    (hns : ns ≠ 0) (hnp : np ≠ 0) (ha : 0 ≤ params.mean_reversion)
    (hvol : 0 ≤ params.vol) :
    ∃ rows, simulate_vasicek_paths shocks rate params dt ns np = .ok rows ∧
      rows.length = np ∧
      ∀ row ∈ rows, row.length = ns + 1 ∧ row.head? = some ((rate : ℚ) : ℝ) := by
  unfold simulate_vasicek_paths
  rw [if_neg (not_le.mpr hdt), if_neg hns, if_neg hnp,
    if_neg (not_lt.mpr ha), if_neg (not_lt.mpr hvol)]
  refine ⟨_, rfl, by simp, ?_⟩
  intro row hrow
  rcases List.mem_map.mp hrow with ⟨p, _, rfl⟩
  constructor
  · simp
  · rw [List.range_succ_eq_map, List.map_cons]
    rfl

/-- `simulate_heston_paths` under valid inputs: shape and initial column. -/
theorem simulate_heston_paths_ok (z1 z2 : ℕ → ℕ → ℝ) (spot : ℚ)
    (params : HestonParams) (dt : ℚ) (ns np : ℕ) (hspot : 0 < spot)
    (hdt : 0 < dt) (hns : ns ≠ 0) (hnp : np ≠ 0) (hkappa : 0 ≤ params.kappa)
    (hlv : 0 ≤ params.long_var) (hvv : 0 ≤ params.vol_of_vol)
    (hrho : -1 ≤ params.rho ∧ params.rho ≤ 1) (hiv : 0 ≤ params.initial_var) :
    ∃ rows, simulate_heston_paths z1 z2 spot params dt ns np = .ok rows ∧
      rows.length = np ∧
      ∀ row ∈ rows, row.length = ns + 1 ∧ row.head? = some ((spot : ℚ) : ℝ) := by
  unfold simulate_heston_paths
  rw [if_neg (not_le.mpr hspot), if_neg (not_le.mpr hdt), if_neg hns,
    if_neg hnp, if_neg (not_lt.mpr hkappa), if_neg (not_lt.mpr hlv),
    if_neg (not_lt.mpr hvv), if_neg (not_not_intro hrho),
    if_neg (not_lt.mpr hiv)]
  refine ⟨_, rfl, by simp, ?_⟩
  intro row hrow
  rcases List.mem_map.mp hrow with ⟨p, _, rfl⟩
  constructor
  · simp
  · rw [List.range_succ_eq_map, List.map_cons]
    rfl

/-- C7: all four path simulators (GBM, Hull-White, Heston, Vasicek), under
positive `dt`, step and path counts and valid model parameters, return a
`num_paths × (num_steps + 1)` array whose column 0 equals the initial
spot/rate level on every path. -/
theorem c7_simulators_shape_and_initial_column (shocks z2 : ℕ → ℕ → ℝ)
    (spot rate : ℚ) (gp : GBMParams) (hp : HullWhiteParams)
    (sp : HestonParams) (vp : VasicekParams) (dt : ℚ) (ns np : ℕ)
    (hspot : 0 < spot) (hdt : 0 < dt) (hns : ns ≠ 0) (hnp : np ≠ 0)
    (hgvol : 0 ≤ gp.vol) (hha : 0 ≤ hp.mean_reversion) (hhvol : 0 ≤ hp.vol)
    (hkappa : 0 ≤ sp.kappa) (hlv : 0 ≤ sp.long_var) (hvv : 0 ≤ sp.vol_of_vol)
    (hrho : -1 ≤ sp.rho ∧ sp.rho ≤ 1) (hiv : 0 ≤ sp.initial_var)
    (hva : 0 ≤ vp.mean_reversion) (hvvol : 0 ≤ vp.vol) :
    (∃ rows, simulate_gbm_paths shocks spot gp dt ns np = .ok rows ∧
      rows.length = np ∧
      ∀ row ∈ rows, row.length = ns + 1 ∧ row.head? = some ((spot : ℚ) : ℝ)) ∧
    (∃ rows, simulate_hull_white_paths shocks rate hp dt ns np = .ok rows ∧
      rows.length = np ∧
      ∀ row ∈ rows, row.length = ns + 1 ∧ row.head? = some ((rate : ℚ) : ℝ)) ∧
    (∃ rows, simulate_heston_paths shocks z2 spot sp dt ns np = .ok rows ∧
      rows.length = np ∧
      ∀ row ∈ rows, row.length = ns + 1 ∧ row.head? = some ((spot : ℚ) : ℝ)) ∧
    (∃ rows, simulate_vasicek_paths shocks rate vp dt ns np = .ok rows ∧
      rows.length = np ∧
      ∀ row ∈ rows, row.length = ns + 1 ∧ row.head? = some ((rate : ℚ) : ℝ)) :=
  ⟨simulate_gbm_paths_ok shocks spot gp dt ns np hspot hdt hns hnp hgvol,
   simulate_hull_white_paths_ok shocks rate hp dt ns np hdt hns hnp hha hhvol,
   simulate_heston_paths_ok shocks z2 spot sp dt ns np hspot hdt hns hnp
     hkappa hlv hvv hrho hiv,
   simulate_vasicek_paths_ok shocks rate vp dt ns np hdt hns hnp hva hvvol⟩

/-- C7 witness: all four simulators at spot = rate = 1, zero parameters,
`dt = 1`, one step and one path, with the all-zeros draw stream. -/
theorem c7_simulators_shape_and_initial_column_witness :
    (∃ rows, simulate_gbm_paths (fun _ _ => 0) 1 ⟨0, 0⟩ 1 1 1 = .ok rows ∧
      rows.length = 1 ∧
      ∀ row ∈ rows, row.length = 1 + 1 ∧ row.head? = some (((1:ℚ)) : ℝ)) ∧
    (∃ rows, simulate_hull_white_paths (fun _ _ => 0) 1 ⟨0, 0, 0⟩ 1 1 1 = .ok rows ∧
      rows.length = 1 ∧
      ∀ row ∈ rows, row.length = 1 + 1 ∧ row.head? = some (((1:ℚ)) : ℝ)) ∧
    (∃ rows, simulate_heston_paths (fun _ _ => 0) (fun _ _ => 0) 1
        ⟨0, 0, 0, 0, 0, 0⟩ 1 1 1 = .ok rows ∧
      rows.length = 1 ∧
      ∀ row ∈ rows, row.length = 1 + 1 ∧ row.head? = some (((1:ℚ)) : ℝ)) ∧
    (∃ rows, simulate_vasicek_paths (fun _ _ => 0) 1 ⟨0, 0, 0⟩ 1 1 1 = .ok rows ∧
      rows.length = 1 ∧
      ∀ row ∈ rows, row.length = 1 + 1 ∧ row.head? = some (((1:ℚ)) : ℝ)) :=
  c7_simulators_shape_and_initial_column (fun _ _ => 0) (fun _ _ => 0) 1 1
    ⟨0, 0⟩ ⟨0, 0, 0⟩ ⟨0, 0, 0, 0, 0, 0⟩ ⟨0, 0, 0⟩ 1 1 1
    (by norm_num) (by norm_num) (by decide) (by decide) le_rfl le_rfl le_rfl
    le_rfl le_rfl le_rfl (by norm_num) le_rfl le_rfl le_rfl

/-! ## Lemmas about portfolio parametric VaR -/

/-- C10: `parametric_portfolio_var` clamps the portfolio variance wᵀΣw at
zero before the square root.  For every non-empty weights vector and square
covariance matrix of matching dimension — including a covariance for which
wᵀΣw is negative — the call succeeds and the reported std equals
`√(max(wᵀΣw, 0))`, a well-defined number ≥ 0 (never a NaN). -/
theorem c10_portfolio_std_clamped (weights : List ℚ)
    (covariance : List (List ℚ)) (confidence : ℚ) (horizon : ℕ)
    (hne : weights ≠ []) (hsq : covariance.length = weights.length)
    (hrows : ∀ row ∈ covariance, row.length = weights.length)
    (h0 : 0 < confidence) (h1 : confidence < 1) (hh : horizon ≠ 0) :
    ∃ res, parametric_portfolio_var weights covariance none confidence
        horizon "simple" "left" = .ok res ∧
      res.std = Real.sqrt
        ((max (dotQ weights (covariance.map (fun row => dotQ row weights)))
          0 : ℚ) : ℝ) ∧
      0 ≤ res.std := by
  have hppf : normal_ppf (1 - confidence) = .ok (acklamPPF (1 - confidence)) := by
    unfold normal_ppf
    rw [if_neg (by push_neg; constructor <;> linarith)]
  have hallrows : covariance.all
      (fun row => row.length = covariance.length) = true := by
    rw [List.all_eq_true]
    intro row hrow
    rw [hsq]
    simpa using hrows row hrow
  unfold parametric_portfolio_var
  rw [if_neg (by push_neg; exact ⟨h0, h1⟩), if_neg hh, if_neg hne,
    if_neg (not_not_intro hallrows), if_neg (not_not_intro hsq)]
  dsimp only
  rw [if_neg (not_not_intro (by rw [Option.getD_none, List.length_replicate])),
    if_neg (by decide), if_neg (by decide),
    if_neg (show ¬("left" : String) = "right" by decide), hppf]
  dsimp only
  rw [if_neg (show ¬("simple" : String) = "log" by decide)]
  exact ⟨_, rfl, rfl, Real.sqrt_nonneg _⟩

/-- C10 witness: a one-asset portfolio with the non-positive-semidefinite
covariance `[[-1]]`: the portfolio variance wᵀΣw is −1 < 0, yet the call
succeeds with std = √(max(−1, 0)) = 0. -/
theorem c10_portfolio_std_clamped_witness :
    dotQ [1] ([[-1]].map (fun row => dotQ row [1])) < 0 ∧
    ∃ res, parametric_portfolio_var [1] [[-1]] none (1/2) 1
        "simple" "left" = .ok res ∧
      res.std = Real.sqrt
        ((max (dotQ [1] ([[-1]].map (fun row => dotQ row [1]))) 0 : ℚ) : ℝ) ∧
      0 ≤ res.std :=
  ⟨by norm_num [dotQ],
   c10_portfolio_std_clamped [1] [[-1]] (1/2) 1 (by decide) (by decide)
     (by decide) (by norm_num) (by norm_num) (by decide)⟩
